import Mathlib

/-!
Verification development for the Pomodouroboros interval-scheduling core
(`pomodouroboros/model/nexus.py` together with `boundaries.py`).

Python floats (epoch seconds and point values) are modelled as rationals,
the mutable `Nexus` object as a record, and calls to the attached UI
listener as an explicit event trace returned by每 operation.  Operations
that can raise (assertion failures, `KeyError`, `IndexError`) return
`Option`, with `none` standing for an abnormal exit.

The repository sources do not include `intervals.py`, `intention.py` and
`ideal.py`; the definitions taken from those modules are marked
"Modelled from the spec:" below and follow the specification text (and the
values pinned by the repository's own test suite).
-/

namespace Pomodouroboros

/-- `IntervalType` enum from `boundaries.py`. -/
inductive IntervalType where
  | Pomodoro
  | GracePeriod
  | Break
  | StartPrompt
deriving DecidableEq, Repr

/-- `PomStartResult` enum from `boundaries.py`. -/
inductive PomStartResult where
  | Started
  | Continued
  | OnBreak
  | AlreadyStarted
deriving DecidableEq, Repr

/-- `EvaluationResult` enum from `boundaries.py`. -/
inductive EvaluationResult where
  | distracted
  | interrupted
  | focused
  | achieved
deriving DecidableEq, Repr

/-- Point values attached to `EvaluationResult` in `boundaries.py`
(distracted 0.1, interrupted 0.2, focused 1.0, achieved 1.25). -/
def EvaluationResult.points : EvaluationResult → ℚ
  | .distracted => 1 / 10
  | .interrupted => 1 / 5
  | .focused => 1
  | .achieved => 5 / 4

/-- Modelled from the spec: `Duration` value type from the missing
`intervals.py` — an interval type together with a length in seconds. -/
structure Duration where
  intervalType : IntervalType
  seconds : ℚ
deriving DecidableEq, Repr

/-- Modelled from the spec: `Evaluation` from the missing `intervals.py`,
a result together with the timestamp at which it was recorded. -/
structure Evaluation where
  result : EvaluationResult
  timestamp : ℚ
deriving DecidableEq, Repr

/-- Modelled from the spec: `Estimate` from the missing `intention.py`,
a duration guess plus the timestamp it was made at. -/
structure Estimate where
  duration : ℚ
  madeAt : ℚ
deriving DecidableEq, Repr

/-- Modelled from the spec: `Intention` from the missing `intention.py`.
The owned pomodoro list is not stored here: every pomodoro carries the id
of its intention, so the association is recovered from the streaks. -/
structure Intention where
  id : ℕ
  created : ℚ
  modified : ℚ
  title : String
  description : String
  estimates : List Estimate
  abandoned : Bool
deriving DecidableEq, Repr

/-- Modelled from the spec: the interval variants from the missing
`intervals.py` (`Pomodoro`, `Break`, `GracePeriod`, `StartPrompt`), each an
immutable description of a timed span.  A `Pomodoro` holds the id of its
intention, its index in the streak, and an optional evaluation; a
`GracePeriod` records the end time the superseded pomodoro would have had. -/
inductive AnyInterval where
  | pomodoro (startTime endTime : ℚ) (intentionId : ℕ) (indexInStreak : ℕ)
      (evaluation : Option Evaluation)
  | breakInterval (startTime endTime : ℚ)
  | gracePeriod (startTime originalPomEnd : ℚ)
  | startPrompt (startTime endTime pointsBeforeLoss pointsAfterLoss : ℚ)
deriving DecidableEq, Repr

/-- The `intervalType` tag of each interval variant. -/
def AnyInterval.intervalType : AnyInterval → IntervalType
  | .pomodoro .. => .Pomodoro
  | .breakInterval .. => .Break
  | .gracePeriod .. => .GracePeriod
  | .startPrompt .. => .StartPrompt

/-- The `startTime` attribute of each interval variant. -/
def AnyInterval.startTime : AnyInterval → ℚ
  | .pomodoro s _ _ _ _ => s
  | .breakInterval s _ => s
  | .gracePeriod s _ => s
  | .startPrompt s _ _ _ => s

/-- Modelled from the spec: the `endTime` attribute.  For a `GracePeriod`
`endTime` is a property computed from `originalPomEnd`; the factor 1/3 is
pinned by the repository's test suite (a 600-second `originalPomEnd` window
yields progress `2/200` after two seconds). -/
def AnyInterval.endTime : AnyInterval → ℚ
  | .pomodoro _ e _ _ _ => e
  | .breakInterval _ e => e
  | .gracePeriod s o => s + (o - s) / 3
  | .startPrompt _ e _ _ => e

/-- `Session` value (work session window) as used by `nexus.py`
(`session.start` / `session.end`; `end` is a Lean keyword, so `stop`). -/
structure Session where
  start : ℚ
  stop : ℚ
deriving DecidableEq, Repr

/-- `GameRules` from `nexus.py`: the configured streak duration table. -/
structure GameRules where
  streakIntervalDurations : List Duration
deriving DecidableEq, Repr

/-- The default duration table of `GameRules`:
(5, 5), (10, 5), (20, 5), (30, 10) pomodoro/break minutes, flattened to
alternating `Duration` values in seconds. -/
def defaultGameRules : GameRules :=
  ⟨[((5 : ℚ), (5 : ℚ)), (10, 5), (20, 5), (30, 10)].flatMap fun p =>
    [⟨IntervalType.Pomodoro, p.1 * 60⟩, ⟨IntervalType.Break, p.2 * 60⟩]⟩

/-- The `Nexus` aggregate from `nexus.py`.  The lazy `_upcomingDurations`
iterator is represented as the list of durations it has yet to yield, and
the UI listener is not stored: each operation returns the events it sends. -/
structure Nexus where
  initialTime : ℚ
  lastIntentionID : ℕ
  intentions : List Intention
  upcomingDurations : List Duration
  rules : GameRules
  streaks : List (List AnyInterval)
  sessions : List Session
  lastUpdateTime : ℚ
deriving DecidableEq, Repr

/-- One call to the `UIEventListener` protocol of `boundaries.py`. -/
inductive UIEvent where
  | intervalStart (interval : AnyInterval)
  | intervalProgress (fraction : ℚ)
  | intervalEnd
deriving DecidableEq, Repr

/-- Result record of `idealScore` (`nextPointLoss`, `scoreBeforeLoss()`,
`scoreAfterLoss()`) as consumed by `Nexus._makeNextInterval`. -/
structure IdealScoreInfo where
  nextPointLoss : Option ℚ
  scoreBeforeLoss : ℚ
  scoreAfterLoss : ℚ

/-- Modelled from the spec: `idealScore` lives in the missing `ideal.py`;
the spec fixes only its signature and that it is a pure function of the
nexus state, so the development is parameterized over it. -/
def IdealScore : Type := Nexus → ℚ → ℚ → IdealScoreInfo

/-- A concrete `IdealScore` used to instantiate witnesses: it reports no
upcoming point loss. -/
def trivialIdealScore : IdealScore := fun _ _ _ => ⟨none, 0, 0⟩

/-- `Nexus._activeInterval`: the last interval of the last streak, when the
cursor has reached its start and has not reached its end. -/
def activeInterval (n : Nexus) : Option AnyInterval :=
  match n.streaks.getLast? with
  | none => none
  | some currentStreak =>
    match currentStreak.getLast? with
    | none => none
    | some candidateInterval =>
      if n.lastUpdateTime < candidateInterval.startTime then none
      else if candidateInterval.endTime ≤ n.lastUpdateTime then none
      else some candidateInterval

/-- `self._streaks[-1].append(i)`; `none` models the `IndexError` raised on
an empty streak list. -/
def appendToLast (streaks : List (List AnyInterval)) (i : AnyInterval) :
    Option (List (List AnyInterval)) :=
  match streaks.getLast? with
  | none => none
  | some last => some (streaks.dropLast ++ [last ++ [i]])

/-- `preludeIntervalMap` from `nexus.py`: the interval that leads up to a
duration of the given type; `none` models the `KeyError` for types absent
from the mapping. -/
def preludeInterval (t : IntervalType) (s e : ℚ) : Option AnyInterval :=
  match t with
  | .Pomodoro => some (.gracePeriod s e)
  | .Break => some (.breakInterval s e)
  | _ => none

/-- `Nexus._makeNextInterval`: construct and activate the next interval in
the duration sequence, or (when idle inside a session) a `StartPrompt`.
`none` models an exception (the `previouslyActive` assertion, the
`preludeIntervalMap` lookup, or appending to an empty streak list). -/
def makeNextInterval (ideal : IdealScore) (n : Nexus)
    (previouslyActive : Option AnyInterval) : Option (Nexus × List UIEvent) :=
  let timestamp := n.lastUpdateTime
  match n.upcomingDurations with
  | duration :: rest =>
    match previouslyActive with
    | none => none
    | some prev =>
      match preludeInterval duration.intervalType prev.endTime
          (prev.endTime + duration.seconds) with
      | none => none
      | some newInterval =>
        match appendToLast n.streaks newInterval with
        | none => none
        | some streaks' =>
          some ({ n with upcomingDurations := rest, streaks := streaks' },
            [UIEvent.intervalStart newInterval])
  | [] =>
    match n.sessions.find? fun s =>
        decide (s.start ≤ timestamp) && decide (timestamp < s.stop) with
    | none => some (n, [])
    | some session =>
      let scoreInfo := ideal n session.start session.stop
      match scoreInfo.nextPointLoss with
      | none => some (n, [])
      | some nextDrop =>
        if nextDrop ≤ timestamp then some (n, [])
        else
          let sp := AnyInterval.startPrompt timestamp nextDrop
            scoreInfo.scoreBeforeLoss scoreInfo.scoreAfterLoss
          match appendToLast n.streaks sp with
          | none => none
          | some streaks' =>
            some ({ n with streaks := streaks' }, [UIEvent.intervalStart sp])

/-- The `while` loop of `Nexus.advanceToTime`, written with explicit fuel
(`none` at fuel 0 marks non-termination; the lemmas below show the fuel
passed by `advanceToTime` is never exhausted).  Each iteration re-reads the
active interval, stops when it is absent or equal to the previous one,
notifies progress, and—when the cursor has passed the interval's end—ends
it, breaks the streak after an expired grace period, and materializes the
next interval. -/
def advanceLoop (ideal : IdealScore) :
    ℕ → Nexus → ℚ → Option AnyInterval → Option (Nexus × List UIEvent)
  | 0, _, _, _ => none
  | fuel + 1, n, newTime, previousInterval =>
    match activeInterval n with
    | none => some (n, [])
    | some interval =>
      if previousInterval = some interval then some (n, [])
      else
        let current := newTime - interval.startTime
        let total := interval.endTime - interval.startTime
        let progressEvent := UIEvent.intervalProgress (min 1 (current / total))
        if interval.endTime ≤ newTime then
          let n1 :=
            if interval.intervalType = IntervalType.GracePeriod then
              { n with upcomingDurations := [], streaks := n.streaks ++ [[]] }
            else n
          match makeNextInterval ideal n1 (some interval) with
          | none => none
          | some (n2, evs) =>
            match advanceLoop ideal fuel n2 newTime (some interval) with
            | none => none
            | some (n3, evs3) =>
              some (n3, progressEvent :: UIEvent.intervalEnd :: (evs ++ evs3))
        else
          match advanceLoop ideal fuel n newTime (some interval) with
          | none => none
          | some (n3, evs3) => some (n3, progressEvent :: evs3)

/-- `Nexus.advanceToTime`: fail on a backward move, capture the previously
active interval, move the cursor, bootstrap an interval when none was
active, run the interval loop, and finally assert that no active interval
has been left in the past.  `none` models an `AssertionError`. -/
def advanceToTime (ideal : IdealScore) (n : Nexus) (newTime : ℚ) :
    Option (Nexus × List UIEvent) :=
  if newTime < n.lastUpdateTime then none
  else
    let previouslyActiveInterval := activeInterval n
    let n1 : Nexus := { n with lastUpdateTime := newTime }
    let bootstrap : Option (Nexus × List UIEvent) :=
      match previouslyActiveInterval with
      | none => makeNextInterval ideal n1 none
      | some _ => some (n1, [])
    match bootstrap with
    | none => none
    | some (n2, evs1) =>
      match advanceLoop ideal (n2.upcomingDurations.length + 2) n2 newTime none with
      | none => none
      | some (n3, evs2) =>
        match activeInterval n3 with
        | none => some (n3, evs1 ++ evs2)
        | some i =>
          if n3.lastUpdateTime ≤ i.endTime then some (n3, evs1 ++ evs2)
          else none

/-- `True` exactly for `Pomodoro` intervals
(`isinstance(each, Pomodoro)` in `nexus.py`). -/
def AnyInterval.isPomodoro : AnyInterval → Bool
  | .pomodoro .. => true
  | _ => false

/-- The `startPom` callback inside `Nexus.startPomodoro`: build the new
pomodoro with `indexInStreak` equal to the count of pomodoros already in
the current streak, append it to the current streak (and, through the
shared intention id, to the intention's pomodoro list), and notify the
listener. -/
def startPom (n : Nexus) (intentionId : ℕ) (startTime endTime : ℚ) :
    Option (Nexus × List UIEvent) :=
  match n.streaks.getLast? with
  | none => none
  | some lastStreak =>
    let newPomodoro := AnyInterval.pomodoro startTime endTime intentionId
      (lastStreak.countP AnyInterval.isPomodoro) none
    some ({ n with streaks := n.streaks.dropLast ++ [lastStreak ++ [newPomodoro]] },
      [UIEvent.intervalStart newPomodoro])

/-- Modelled from the spec: `handleIdleStartPom` from the missing
`intervals.py` — reset the upcoming-duration sequence to the rule table,
consume its first entry (asserting it exists and is a pomodoro duration),
and start a pomodoro of that length at the current cursor, reporting
`Started`. -/
def handleIdleStartPom (n : Nexus) (intentionId : ℕ) (preEvents : List UIEvent) :
    Option (Nexus × List UIEvent × PomStartResult) :=
  match n.rules.streakIntervalDurations with
  | [] => none
  | d0 :: rest =>
    if d0.intervalType = IntervalType.Pomodoro then
      let startTime := n.lastUpdateTime
      match startPom { n with upcomingDurations := rest } intentionId startTime
          (startTime + d0.seconds) with
      | none => none
      | some (n', evs) => some (n', preEvents ++ evs, PomStartResult.Started)
    else none

/-- `Nexus.startPomodoro`: dispatch on the currently active interval.  The
per-variant handlers live in the missing `intervals.py` and are modelled
from the spec: a running pomodoro rejects with `AlreadyStarted`, a break
with `OnBreak`; a grace period starts the continued pomodoro backdated to
its own start and ending at `originalPomEnd`; a start prompt finishes
(final progress plus end notification) and defers to the idle handler, as
does the idle state. -/
def startPomodoro (n : Nexus) (intentionId : ℕ) :
    Option (Nexus × List UIEvent × PomStartResult) :=
  match activeInterval n with
  | none => handleIdleStartPom n intentionId []
  | some (AnyInterval.pomodoro ..) => some (n, [], PomStartResult.AlreadyStarted)
  | some (AnyInterval.breakInterval ..) => some (n, [], PomStartResult.OnBreak)
  | some (AnyInterval.gracePeriod s o) =>
    match startPom n intentionId s o with
    | none => none
    | some (n', evs) => some (n', evs, PomStartResult.Continued)
  | some (AnyInterval.startPrompt ..) =>
    handleIdleStartPom n intentionId
      [UIEvent.intervalProgress 1, UIEvent.intervalEnd]

/-- Modelled from the spec: `Intention.completed` from the missing
`intention.py` is derived — true iff any pomodoro associated with the
intention (recovered from the streaks via the intention id) carries an
`achieved` evaluation. -/
def intentionEverAchieved (n : Nexus) (intentionId : ℕ) : Bool :=
  n.streaks.any fun streak => streak.any fun interval =>
    match interval with
    | .pomodoro _ _ iid _ (some ev) =>
      iid == intentionId && ev.result == EvaluationResult.achieved
    | _ => false

/-- `Nexus.evaluatePomodoro` on the pomodoro stored at position
`intervalIndex` of streak `streakIndex`: attach `(result, cursor)`; when
the result is `achieved`, assert the intention is now complete and—if the
pomodoro ends after the cursor—assert it is the active interval (in the
object model: the last interval of the last streak), truncate its end time
to the cursor and re-run `advanceToTime` at the unchanged cursor.  `none`
models an exception (a non-pomodoro location or a failed assertion). -/
def evaluatePomodoro (ideal : IdealScore) (n : Nexus)
    (streakIndex intervalIndex : ℕ) (result : EvaluationResult) :
    Option (Nexus × List UIEvent) :=
  match n.streaks.get? streakIndex with
  | none => none
  | some streak =>
    match streak.get? intervalIndex with
    | some (AnyInterval.pomodoro s e intentionId idx _) =>
      let timestamp := n.lastUpdateTime
      let evaluated := AnyInterval.pomodoro s e intentionId idx
        (some ⟨result, timestamp⟩)
      let n1 : Nexus :=
        { n with streaks := n.streaks.set streakIndex (streak.set intervalIndex evaluated) }
      if result = EvaluationResult.achieved then
        if intentionEverAchieved n1 intentionId then
          if timestamp < e then
            if activeInterval n1 = some evaluated
                ∧ streakIndex + 1 = n.streaks.length
                ∧ intervalIndex + 1 = streak.length then
              let truncated := AnyInterval.pomodoro s timestamp intentionId idx
                (some ⟨result, timestamp⟩)
              let n2 : Nexus :=
                { n with streaks := n.streaks.set streakIndex (streak.set intervalIndex truncated) }
              advanceToTime ideal n2 n2.lastUpdateTime
            else none
          else some (n1, [])
        else none
      else some (n1, [])
    | _ => none

/-- `Nexus.cloneWithoutUI`: rebuild the nexus via `dataclasses.replace`
(which re-runs `__post_init__`, advancing when the initial time is ahead of
the cursor) with the sessions field replaced by a fresh empty list, then
restore the cursor.  The clone's listener is the no-op interface, so the
events it receives are discarded; the original is not touched. -/
def cloneWithoutUI (ideal : IdealScore) (n : Nexus) : Option Nexus :=
  let replaced : Nexus := { n with sessions := [] }
  let posted : Option Nexus :=
    if replaced.lastUpdateTime < replaced.initialTime then
      (advanceToTime ideal replaced replaced.initialTime).map Prod.fst
    else some replaced
  posted.map fun h => { h with lastUpdateTime := n.lastUpdateTime }

/-- Score event carrying `(points, time)`, per `ScoreEvent` in
`boundaries.py`. -/
structure ScoreEvt where
  points : ℚ
  time : ℚ
deriving DecidableEq, Repr

/-- Modelled from the spec: `Intention.intentionScoreEvents` from the
missing `intention.py` — an intention-created event at the creation time
and one estimate-given event per estimate, with the fixed point constants
exercised by the repository's test suite (3 and 1). -/
def intentionScoreEvents (i : Intention) : List ScoreEvt :=
  ⟨3, i.created⟩ :: i.estimates.map fun e => ⟨1, e.madeAt⟩

/-- Modelled from the spec: per-interval `scoreEvents` from the missing
`intervals.py` — a started-with-intention event at the pomodoro's start
(worth `2 ^ indexInStreak`, the per-streak escalation exercised by the test
suite), an evaluation event at the evaluation's timestamp worth the
result's points, and a break-taken event worth 1; grace periods and start
prompts score nothing. -/
def AnyInterval.scoreEvents : AnyInterval → List ScoreEvt
  | .pomodoro s _ _ idx eval =>
    ⟨(2 : ℚ) ^ idx, s⟩ ::
      (match eval with
      | some ev => [⟨ev.result.points, ev.timestamp⟩]
      | none => [])
  | .breakInterval s _ => [⟨1, s⟩]
  | .gracePeriod _ _ => []
  | .startPrompt _ _ _ _ => []

/-- `Nexus.scoreEvents` with explicit bounds: all intention events whose
time falls in the inclusive window, plus, for each interval that starts
strictly after the window's start, the interval events whose time falls in
the inclusive window. -/
def scoreEvents (n : Nexus) (startTime endTime : ℚ) : List ScoreEvt :=
  (n.intentions.flatMap fun i =>
    (intentionScoreEvents i).filter fun e =>
      decide (startTime ≤ e.time) && decide (e.time ≤ endTime))
  ++ n.streaks.flatMap fun streak =>
    streak.flatMap fun interval =>
      if startTime < interval.startTime then
        interval.scoreEvents.filter fun e =>
          decide (startTime ≤ e.time) && decide (e.time ≤ endTime)
      else []

/-- Modelled from the spec: `Intention.completed` for a given intention
value (see `intentionEverAchieved`). -/
def intentionCompleted (n : Nexus) (i : Intention) : Bool :=
  intentionEverAchieved n i.id

/-- `Nexus.availableIntentions`: the intentions that are neither completed
nor abandoned, in their original order. -/
def availableIntentions (n : Nexus) : List Intention :=
  n.intentions.filter fun i => !intentionCompleted n i && !i.abandoned

/-- The UI events produced by one pass of the interval loop when the cursor
already sits at `newTime`: nothing when no interval is active or the active
interval was already visited, otherwise a single progress notification. -/
def loopEvents (n : Nexus) (newTime : ℚ) (prev : Option AnyInterval) :
    List UIEvent :=
  match activeInterval n with
  | none => []
  | some i =>
    if prev = some i then []
    else [UIEvent.intervalProgress
      (min 1 ((newTime - i.startTime) / (i.endTime - i.startTime)))]

/-- Claim C4's duration-selection rule, written from the spec's words (the
source has no such selection): the pomodoro length chosen by
`indexInStreak` from the configured duration table, clamped to the last
entry when the streak is longer than the list. -/
def specIndexSelectedPomodoroSeconds (rules : GameRules) (idx : ℕ) : ℚ :=
  let poms := rules.streakIntervalDurations.filter
    fun d => d.intervalType == IntervalType.Pomodoro
  match poms.get? idx with
  | some d => d.seconds
  | none => ((poms.getLast?).map Duration.seconds).getD 0

/-- The default duration table with its head (the first pomodoro entry)
consumed, as `handleIdleStartPom` leaves it behind. -/
def restDefault : List Duration := defaultGameRules.streakIntervalDurations.tail

/-- A single intention created at time 0. -/
def intention0 : Intention := ⟨1, 0, 0, "", "", [], false⟩

/-- The five-minute pomodoro produced by starting at time 0. -/
def pom1 : AnyInterval := .pomodoro 0 300 1 0 none

/-- A fresh nexus at time 0 holding one intention. -/
def nexus0 : Nexus := ⟨0, 1, [intention0], [], defaultGameRules, [[]], [], 0⟩

/-- `nexus0` after `startPomodoro` at time 0. -/
def nexus1 : Nexus :=
  { nexus0 with upcomingDurations := restDefault, streaks := [[pom1]] }

/-- `nexus1` after `advanceToTime 400`, one hundred seconds past the end of
`pom1`: the pomodoro is silently no longer active, yet no break was built
and the upcoming durations were not consumed. -/
def nexus2 : Nexus := { nexus1 with lastUpdateTime := 400 }

/-- The pomodoro produced by starting again from `nexus2`. -/
def pom2 : AnyInterval := .pomodoro 400 700 1 1 none

/-- `nexus2` after the second `startPomodoro`. -/
def nexus3 : Nexus := { nexus2 with streaks := [[pom1, pom2]] }

/-- An intention created at time 1234 (the `test_achievedEarly` scenario). -/
def intentionA : Intention := ⟨1, 1234, 1234, "", "", [], false⟩

/-- A nexus at time 1234 holding `intentionA`. -/
def nexusA : Nexus := ⟨0, 1, [intentionA], [], defaultGameRules, [[]], [], 1234⟩

/-- The pomodoro started from `nexusA` at time 1234. -/
def pomA : AnyInterval := .pomodoro 1234 1534 1 0 none

/-- `nexusA` after `startPomodoro`. -/
def nexusB : Nexus :=
  { nexusA with upcomingDurations := restDefault, streaks := [[pomA]] }

/-- `nexusB` after `advanceToTime 1334`, one hundred seconds into `pomA`. -/
def nexusC : Nexus := { nexusB with lastUpdateTime := 1334 }

/-- A nexus at time 50 with one work session on the books. -/
def nexusC5 : Nexus := ⟨0, 0, [], [], defaultGameRules, [[]], [⟨1000, 2000⟩], 50⟩

/-- A pomodoro spanning exactly the window queried in the `scoreEvents`
counterexample. -/
def pomC6 : AnyInterval := .pomodoro 100 400 1 0 none

/-- A nexus whose single streak holds `pomC6`. -/
def nexusC6 : Nexus := ⟨0, 1, [], [], defaultGameRules, [[pomC6]], [], 400⟩

theorem activeInterval_bounds {n : Nexus} {i : AnyInterval}
    (h : activeInterval n = some i) :
    i.startTime ≤ n.lastUpdateTime ∧ n.lastUpdateTime < i.endTime := by
  unfold activeInterval at h
  split at h
  · exact absurd h (by simp)
  split at h
  · exact absurd h (by simp)
  split at h
  · exact absurd h (by simp)
  split at h
  · exact absurd h (by simp)
  rename_i h1 h2
  simp only [Option.some.injEq] at h
  subst h
  exact ⟨le_of_not_lt h1, lt_of_not_le h2⟩

theorem makeNextInterval_spec {ideal : IdealScore} {n n' : Nexus}
    {p : Option AnyInterval} {evs : List UIEvent}
    (h : makeNextInterval ideal n p = some (n', evs)) :
    n'.lastUpdateTime = n.lastUpdateTime ∧
      ∀ ev ∈ evs, ∃ j, ev = UIEvent.intervalStart j := by
  simp only [makeNextInterval] at h
  repeat' split at h
  all_goals
    first
    | (simp only [Option.some.injEq, Prod.mk.injEq] at h
       obtain ⟨h1, h2⟩ := h
       subst h1
       subst h2
       refine ⟨rfl, ?_⟩
       intro ev hev
       first
       | (rw [List.mem_singleton] at hev
          exact ⟨_, hev⟩)
       | exact absurd hev (List.not_mem_nil ev))
    | simp at h

theorem advanceLoop_eq (ideal : IdealScore) (f : ℕ) {n : Nexus} {newTime : ℚ}
    (h : n.lastUpdateTime = newTime) (prev : Option AnyInterval) :
    advanceLoop ideal (f + 2) n newTime prev = some (n, loopEvents n newTime prev) := by
  show advanceLoop ideal (f + 1 + 1) n newTime prev = _
  rw [advanceLoop.eq_2]
  cases hact : activeInterval n with
  | none => simp [loopEvents, hact]
  | some i =>
    by_cases hp : prev = some i
    · simp [loopEvents, hact, hp]
    · have hend : ¬ i.endTime ≤ newTime := by
        have := (activeInterval_bounds hact).2
        rw [h] at this
        exact not_le.mpr this
      dsimp only
      rw [if_neg hp, if_neg hend, advanceLoop.eq_2, hact]
      dsimp only
      rw [if_pos rfl]
      simp [loopEvents, hact, hp]

theorem advanceToTime_eq_active {ideal : IdealScore} {n : Nexus} {newTime : ℚ}
    (h : ¬ newTime < n.lastUpdateTime) {j : AnyInterval}
    (hact : activeInterval n = some j) :
    advanceToTime ideal n newTime =
      some ({ n with lastUpdateTime := newTime },
        loopEvents { n with lastUpdateTime := newTime } newTime none) := by
  unfold advanceToTime
  rw [if_neg h, hact]
  dsimp only
  have hcur : ({ n with lastUpdateTime := newTime } : Nexus).lastUpdateTime
      = newTime := rfl
  rw [advanceLoop_eq ideal _ hcur none]
  dsimp only
  cases hact2 : activeInterval { n with lastUpdateTime := newTime } with
  | none => simp
  | some i =>
    have := (activeInterval_bounds hact2).2
    rw [hcur] at this
    simp [le_of_lt this]

theorem advanceToTime_eq_idle {ideal : IdealScore} {n : Nexus} {newTime : ℚ}
    (h : ¬ newTime < n.lastUpdateTime) (hact : activeInterval n = none) :
    advanceToTime ideal n newTime =
      (makeNextInterval ideal { n with lastUpdateTime := newTime } none).bind
        fun r => some (r.1, r.2 ++ loopEvents r.1 newTime none) := by
  unfold advanceToTime
  rw [if_neg h, hact]
  dsimp only
  cases hmk : makeNextInterval ideal { n with lastUpdateTime := newTime } none with
  | none => rfl
  | some r =>
    obtain ⟨n2, evs⟩ := r
    dsimp only
    have hcur : n2.lastUpdateTime = newTime := by
      rw [(makeNextInterval_spec hmk).1]
    rw [advanceLoop_eq ideal _ hcur none]
    dsimp only [Option.bind_some]
    cases hact2 : activeInterval n2 with
    | none => simp
    | some i =>
      have := (activeInterval_bounds hact2).2
      rw [hcur] at this
      simp [hcur, le_of_lt this]

/-- Every successful `advanceToTime` call leaves the cursor at the new time
and only ever reports progress fractions inside the unit interval. -/
theorem advanceToTime_some_spec {ideal : IdealScore} {n n' : Nexus}
    {newTime : ℚ} {evs : List UIEvent}
    (h : advanceToTime ideal n newTime = some (n', evs)) :
    n'.lastUpdateTime = newTime ∧
      ∀ q, UIEvent.intervalProgress q ∈ evs → 0 ≤ q ∧ q ≤ 1 := by
  have hnb : ¬ newTime < n.lastUpdateTime := by
    intro hlt
    rw [advanceToTime, if_pos hlt] at h
    exact absurd h (by simp)
  have loopCase : ∀ m : Nexus, m.lastUpdateTime = newTime →
      ∀ q, UIEvent.intervalProgress q ∈ loopEvents m newTime none →
        0 ≤ q ∧ q ≤ 1 := by
    intro m hm q hq
    unfold loopEvents at hq
    cases hact : activeInterval m with
    | none =>
      rw [hact] at hq
      exact absurd hq (List.not_mem_nil _)
    | some i =>
      rw [hact] at hq
      dsimp only at hq
      have hne : (none : Option AnyInterval) ≠ some i := by simp
      rw [if_neg hne, List.mem_singleton] at hq
      have hbounds := activeInterval_bounds hact
      rw [hm] at hbounds
      have hpos : 0 < i.endTime - i.startTime := by
        have := lt_of_le_of_lt hbounds.1 hbounds.2
        linarith
      have hq' : q = min 1 ((newTime - i.startTime) / (i.endTime - i.startTime)) := by
        injection hq
      constructor
      · rw [hq']
        exact le_min zero_le_one
          (div_nonneg (by linarith [hbounds.1]) (le_of_lt hpos))
      · rw [hq']
        exact min_le_left _ _
  cases hact : activeInterval n with
  | some j =>
    rw [advanceToTime_eq_active hnb hact] at h
    simp only [Option.some.injEq, Prod.mk.injEq] at h
    obtain ⟨h1, h2⟩ := h
    subst h1
    subst h2
    exact ⟨rfl, loopCase _ rfl⟩
  | none =>
    rw [advanceToTime_eq_idle hnb hact] at h
    cases hmk : makeNextInterval ideal { n with lastUpdateTime := newTime } none with
    | none => rw [hmk] at h; exact absurd h (by simp)
    | some r =>
      obtain ⟨n2, evs2⟩ := r
      rw [hmk] at h
      simp only [Option.some_bind, Option.some.injEq, Prod.mk.injEq] at h
      obtain ⟨h1, h2⟩ := h
      have hcur : n2.lastUpdateTime = newTime := (makeNextInterval_spec hmk).1
      subst h1
      subst h2
      refine ⟨hcur, ?_⟩
      intro q hq
      rcases List.mem_append.mp hq with hq | hq
      · obtain ⟨j, hj⟩ := (makeNextInterval_spec hmk).2 _ hq
        exact absurd hj (by simp)
      · exact loopCase _ hcur q hq

theorem advanceToTime_some_not_backward {ideal : IdealScore} {n n' : Nexus}
    {t : ℚ} {evs : List UIEvent}
    (h : advanceToTime ideal n t = some (n', evs)) : ¬ t < n.lastUpdateTime := by
  intro hlt
  rw [advanceToTime, if_pos hlt] at h
  exact absurd h (by simp)

theorem startPom_spec {n n' : Nexus} {iid : ℕ} {s e : ℚ} {evs : List UIEvent}
    (h : startPom n iid s e = some (n', evs)) :
    ∃ lastStreak, n.streaks.getLast? = some lastStreak ∧
      n' = { n with streaks := n.streaks.dropLast ++
        [lastStreak ++ [AnyInterval.pomodoro s e iid
          (lastStreak.countP AnyInterval.isPomodoro) none]] } ∧
      evs = [UIEvent.intervalStart (AnyInterval.pomodoro s e iid
        (lastStreak.countP AnyInterval.isPomodoro) none)] := by
  unfold startPom at h
  split at h
  · exact absurd h (by simp)
  · rename_i lastStreak hlast
    simp only [Option.some.injEq, Prod.mk.injEq] at h
    exact ⟨lastStreak, hlast, h.1.symm, h.2.symm⟩

theorem handleIdleStartPom_spec {n n' : Nexus} {iid : ℕ}
    {pre evs : List UIEvent} {res : PomStartResult}
    (h : handleIdleStartPom n iid pre = some (n', evs, res)) :
    res = PomStartResult.Started ∧
      ∃ d rest evs2, n.rules.streakIntervalDurations = d :: rest ∧
        d.intervalType = IntervalType.Pomodoro ∧ evs = pre ++ evs2 ∧
        startPom { n with upcomingDurations := rest } iid n.lastUpdateTime
          (n.lastUpdateTime + d.seconds) = some (n', evs2) := by
  unfold handleIdleStartPom at h
  split at h
  · exact absurd h (by simp)
  · rename_i d0 rest hdur
    split at h
    · rename_i htype
      dsimp only at h
      split at h
      · exact absurd h (by simp)
      all_goals
        (rename_i hsp
         simp only [Option.some.injEq, Prod.mk.injEq] at h
         obtain ⟨h1, h2, h3⟩ := h
         subst h1
         subst h2
         subst h3
         exact ⟨rfl, d0, rest, _, hdur, htype, rfl, hsp⟩)
    · exact absurd h (by simp)

/-- C1: every `advanceToTime` call that returns normally leaves the cursor
at the new time, and afterwards either no interval is active or the active
interval (the last interval of the last streak) ends no earlier than the
cursor; no interval is ever left active with `endTime` strictly below the
cursor. -/
theorem advanceToTime_never_leaves_past_active_interval (ideal : IdealScore)
    (n : Nexus) (t : ℚ) (n' : Nexus) (evs : List UIEvent)
    (h : advanceToTime ideal n t = some (n', evs)) :
    n'.lastUpdateTime = t ∧
      ∀ i, activeInterval n' = some i → n'.lastUpdateTime ≤ i.endTime := by
  refine ⟨(advanceToTime_some_spec h).1, ?_⟩
  intro i hi
  exact le_of_lt (activeInterval_bounds hi).2

set_option maxRecDepth 100000 in
unseal Rat.add Rat.sub Rat.mul Rat.inv in
/-- Witness for C1 at a concrete input: advancing `nexus1` to time 100
leaves the running pomodoro active with its end in the future. -/
theorem advanceToTime_never_leaves_past_active_interval_witness :
    ({ nexus1 with lastUpdateTime := 100 } : Nexus).lastUpdateTime = 100 ∧
      ∀ i, activeInterval { nexus1 with lastUpdateTime := 100 } = some i →
        ({ nexus1 with lastUpdateTime := 100 } : Nexus).lastUpdateTime ≤ i.endTime :=
  advanceToTime_never_leaves_past_active_interval trivialIdealScore nexus1 100
    { nexus1 with lastUpdateTime := 100 }
    [UIEvent.intervalProgress (1 / 3)] (by decide)

/-- C2: advancing to a time strictly before the cursor fails with the
contract-violation assertion (no clamping, no state change is returned),
and every successful call moves the cursor monotonically forward. -/
theorem advanceToTime_monotonic_cursor (ideal : IdealScore) (n : Nexus) (t : ℚ) :
    (t < n.lastUpdateTime → advanceToTime ideal n t = none) ∧
      ∀ n' evs, advanceToTime ideal n t = some (n', evs) →
        n.lastUpdateTime ≤ n'.lastUpdateTime := by
  constructor
  · intro hlt
    rw [advanceToTime, if_pos hlt]
  · intro n' evs h
    rw [(advanceToTime_some_spec h).1]
    exact le_of_not_lt (advanceToTime_some_not_backward h)

set_option maxRecDepth 100000 in
unseal Rat.add Rat.sub Rat.mul Rat.inv in
/-- Witness for C2 at concrete inputs: moving `nexus2` back to 100 fails,
and the successful advance of `nexus1` to 400 does not decrease the
cursor. -/
theorem advanceToTime_monotonic_cursor_witness :
    advanceToTime trivialIdealScore nexus2 100 = none ∧
      nexus1.lastUpdateTime ≤ nexus2.lastUpdateTime :=
  ⟨(advanceToTime_monotonic_cursor trivialIdealScore nexus2 100).1 (by decide),
    (advanceToTime_monotonic_cursor trivialIdealScore nexus1 400).2 nexus2 []
      (by decide)⟩

set_option maxRecDepth 100000 in
unseal Rat.add Rat.sub Rat.mul Rat.inv in
/-- C3: the code contradicts the early-achievement behavior (and its own
`test_achievedEarly`).  Replaying that test against the source: a pomodoro
started at 1234 and evaluated `achieved` at 1334 is truncated, but the
re-entrant `advanceToTime` then finds no active interval, takes the
bootstrap path into `_makeNextInterval` with `previouslyActive = None`
while a duration is pending, and dies on the `previouslyActive is not None`
assertion — the following break is never materialized. -/
theorem evaluatePomodoro_achieved_early_crashes :
    startPomodoro nexusA 1
      = some (nexusB, [UIEvent.intervalStart pomA], PomStartResult.Started)
    ∧ advanceToTime trivialIdealScore nexusB 1334
      = some (nexusC, [UIEvent.intervalProgress (1 / 3)])
    ∧ evaluatePomodoro trivialIdealScore nexusC 0 0 EvaluationResult.achieved
      = none := by
  refine ⟨by decide, by decide, by decide⟩

set_option maxRecDepth 100000 in
unseal Rat.add Rat.sub Rat.mul Rat.inv in
/-- C4 falsified at a concrete input: from `nexus2` (whose streak already
holds one pomodoro) a second accepted `startPomodoro` produces
`indexInStreak = 1` but a 300-second pomodoro — the first table entry —
whereas index-based selection from the default table demands 600
seconds. -/
theorem startPomodoro_duration_not_index_selected :
    startPomodoro nexus2 1
      = some (nexus3, [UIEvent.intervalStart pom2], PomStartResult.Started)
    ∧ pom2 = AnyInterval.pomodoro 400 700 1 1 none
    ∧ pom2.endTime - pom2.startTime = 300
    ∧ specIndexSelectedPomodoroSeconds defaultGameRules 1 = 600
    ∧ (300 : ℚ) ≠ 600 := by
  refine ⟨by decide, rfl, by decide, by decide, by decide⟩

/-- C4 (amended): every accepted `startPomodoro` appends a pomodoro whose
`indexInStreak` is the count of pomodoros already in the current streak;
when the result is `Started` (idle or start-prompt state) its duration is
always the first entry of the configured table and the upcoming-duration
sequence is reset to the table's tail, with no index-based selection or
clamping; when the result is `Continued` the pomodoro spans the active
grace period's start to its `originalPomEnd`. -/
theorem startPomodoro_accepted_spec (n : Nexus) (iid : ℕ) (n' : Nexus)
    (evs : List UIEvent) (res : PomStartResult)
    (h : startPomodoro n iid = some (n', evs, res))
    (hres : res = PomStartResult.Started ∨ res = PomStartResult.Continued) :
    ∃ s e lastStreak,
      n.streaks.getLast? = some lastStreak ∧
      (n'.streaks.getLast?.bind List.getLast?)
        = some (AnyInterval.pomodoro s e iid
            (lastStreak.countP AnyInterval.isPomodoro) none) ∧
      (res = PomStartResult.Started →
        s = n.lastUpdateTime ∧
        ∃ d rest, n.rules.streakIntervalDurations = d :: rest ∧
          d.intervalType = IntervalType.Pomodoro ∧ e = s + d.seconds ∧
          n'.upcomingDurations = rest) ∧
      (res = PomStartResult.Continued →
        ∃ o, activeInterval n = some (AnyInterval.gracePeriod s o) ∧ e = o) := by
  unfold startPomodoro at h
  cases hact : activeInterval n with
  | none =>
    rw [hact] at h
    obtain ⟨hres', d, rest, evs2, hdur, htype, hevs, hsp⟩ :=
      handleIdleStartPom_spec h
    obtain ⟨lastStreak, hlast, hn', hevs2⟩ := startPom_spec hsp
    refine ⟨n.lastUpdateTime, n.lastUpdateTime + d.seconds, lastStreak, hlast, ?_, ?_, ?_⟩
    · rw [hn']
      simp [List.getLast?_concat]
    · intro _
      refine ⟨rfl, d, rest, hdur, htype, rfl, ?_⟩
      rw [hn']
    · intro hc
      rw [hres'] at hc
      exact absurd hc (by simp)
  | some i =>
    cases i with
    | pomodoro s0 e0 iid0 idx0 ev0 =>
      rw [hact] at h
      simp only [Option.some.injEq, Prod.mk.injEq] at h
      rcases hres with hres | hres <;>
        (rw [hres] at h; exact absurd h.2.2 (by simp))
    | breakInterval s0 e0 =>
      rw [hact] at h
      simp only [Option.some.injEq, Prod.mk.injEq] at h
      rcases hres with hres | hres <;>
        (rw [hres] at h; exact absurd h.2.2 (by simp))
    | gracePeriod s0 o0 =>
      rw [hact] at h
      dsimp only at h
      cases hsp : startPom n iid s0 o0 with
      | none => rw [hsp] at h; exact absurd h (by simp)
      | some r =>
        obtain ⟨n2, evs2⟩ := r
        rw [hsp] at h
        simp only [Option.some.injEq, Prod.mk.injEq] at h
        obtain ⟨h1, h2, h3⟩ := h
        subst h1
        subst h2
        obtain ⟨lastStreak, hlast, hn', hevs2⟩ := startPom_spec hsp
        refine ⟨s0, o0, lastStreak, hlast, ?_, ?_, ?_⟩
        · rw [hn']
          simp [List.getLast?_concat]
        · intro hc
          rw [← h3] at hc
          exact absurd hc (by simp)
        · intro _
          exact ⟨o0, rfl, rfl⟩
    | startPrompt s0 e0 b0 a0 =>
      rw [hact] at h
      obtain ⟨hres', d, rest, evs2, hdur, htype, hevs, hsp⟩ :=
        handleIdleStartPom_spec h
      obtain ⟨lastStreak, hlast, hn', hevs2⟩ := startPom_spec hsp
      refine ⟨n.lastUpdateTime, n.lastUpdateTime + d.seconds, lastStreak, hlast, ?_, ?_, ?_⟩
      · rw [hn']
        simp [List.getLast?_concat]
      · intro _
        refine ⟨rfl, d, rest, hdur, htype, rfl, ?_⟩
        rw [hn']
      · intro hc
        rw [hres'] at hc
        exact absurd hc (by simp)

set_option maxRecDepth 100000 in
unseal Rat.add Rat.sub Rat.mul Rat.inv in
/-- Witness for the amended C4 at a concrete input: the first
`startPomodoro` on `nexus0`. -/
theorem startPomodoro_accepted_spec_witness :
    ∃ s e lastStreak,
      nexus0.streaks.getLast? = some lastStreak ∧
      (nexus1.streaks.getLast?.bind List.getLast?)
        = some (AnyInterval.pomodoro s e 1
            (lastStreak.countP AnyInterval.isPomodoro) none) ∧
      (PomStartResult.Started = PomStartResult.Started →
        s = nexus0.lastUpdateTime ∧
        ∃ d rest, nexus0.rules.streakIntervalDurations = d :: rest ∧
          d.intervalType = IntervalType.Pomodoro ∧ e = s + d.seconds ∧
          nexus1.upcomingDurations = rest) ∧
      (PomStartResult.Started = PomStartResult.Continued →
        ∃ o, activeInterval nexus0 = some (AnyInterval.gracePeriod s o) ∧ e = o) :=
  startPomodoro_accepted_spec nexus0 1 nexus1 [UIEvent.intervalStart pom1]
    PomStartResult.Started (by decide) (Or.inl rfl)

set_option maxRecDepth 100000 in
unseal Rat.add Rat.sub Rat.mul Rat.inv in
/-- C5 falsified at a concrete input: cloning `nexusC5` produces a clone
with an empty sessions list, not a copy of the original's sessions. -/
theorem cloneWithoutUI_sessions_not_copied :
    nexusC5.sessions = [⟨1000, 2000⟩]
    ∧ (cloneWithoutUI trivialIdealScore nexusC5).map Nexus.sessions = some []
    ∧ (cloneWithoutUI trivialIdealScore nexusC5).map Nexus.sessions
        ≠ some nexusC5.sessions := by
  refine ⟨rfl, by decide, by decide⟩

/-- C5 (amended): for every nexus whose cursor has reached its initial time
(true of every nexus the constructor finishes), `cloneWithoutUI` returns a
clone equal in value to the original in every field — intentions, streaks,
upcoming durations, cursor — except that the sessions list is reset to
empty; the original is left untouched and the clone's listener is the
no-op interface, so no notifications are delivered. -/
theorem cloneWithoutUI_value_spec (ideal : IdealScore) (n : Nexus)
    (h : n.initialTime ≤ n.lastUpdateTime) :
    cloneWithoutUI ideal n = some { n with sessions := [] } := by
  unfold cloneWithoutUI
  dsimp only
  rw [if_neg (not_lt.mpr h)]
  rfl

/-- Witness for the amended C5 at a concrete input. -/
theorem cloneWithoutUI_value_spec_witness :
    cloneWithoutUI trivialIdealScore nexusC5 = some { nexusC5 with sessions := [] } :=
  cloneWithoutUI_value_spec trivialIdealScore nexusC5 (by decide)

set_option maxRecDepth 100000 in
unseal Rat.add Rat.sub Rat.mul Rat.inv in
/-- C6 falsified at a concrete input: the interval `pomC6` starts exactly
at the query window's start, so its started-with-intention event at time
100, although inside the inclusive window `[100, 400]`, is not yielded:
`scoreEvents` keeps an interval's events only when the interval starts
strictly after the window's start. -/
theorem scoreEvents_misses_boundary_interval :
    nexusC6.streaks = [[pomC6]]
    ∧ (⟨1, 100⟩ : ScoreEvt) ∈ pomC6.scoreEvents
    ∧ (100 : ℚ) ≤ 100 ∧ (100 : ℚ) ≤ 400
    ∧ (⟨1, 100⟩ : ScoreEvt) ∉ scoreEvents nexusC6 100 400 := by
  refine ⟨rfl, by decide, by decide, by decide, by decide⟩

/-- C6 (amended): `scoreEvents` yields exactly the intention events whose
time lies in the inclusive window together with the events of those
intervals that start strictly after the window's start whose time lies in
the inclusive window; in particular no yielded event lies outside the
window. -/
theorem scoreEvents_window_spec (n : Nexus) (s t : ℚ) (e : ScoreEvt) :
    (e ∈ scoreEvents n s t → s ≤ e.time ∧ e.time ≤ t) ∧
      (e ∈ scoreEvents n s t ↔
        (∃ i, i ∈ n.intentions ∧ e ∈ intentionScoreEvents i ∧
          s ≤ e.time ∧ e.time ≤ t) ∨
        (∃ streak, streak ∈ n.streaks ∧ ∃ iv, iv ∈ streak ∧
          s < iv.startTime ∧ e ∈ iv.scoreEvents ∧ s ≤ e.time ∧ e.time ≤ t)) := by
  have hiff : e ∈ scoreEvents n s t ↔
      (∃ i, i ∈ n.intentions ∧ e ∈ intentionScoreEvents i ∧
        s ≤ e.time ∧ e.time ≤ t) ∨
      (∃ streak, streak ∈ n.streaks ∧ ∃ iv, iv ∈ streak ∧
        s < iv.startTime ∧ e ∈ iv.scoreEvents ∧ s ≤ e.time ∧ e.time ≤ t) := by
    unfold scoreEvents
    rw [List.mem_append]
    constructor
    · rintro (hm | hm)
      · left
        rw [List.mem_flatMap] at hm
        obtain ⟨i, hi, hm⟩ := hm
        rw [List.mem_filter] at hm
        obtain ⟨hmi, hcond⟩ := hm
        simp only [Bool.and_eq_true, decide_eq_true_eq] at hcond
        exact ⟨i, hi, hmi, hcond.1, hcond.2⟩
      · right
        rw [List.mem_flatMap] at hm
        obtain ⟨streak, hstreak, hm⟩ := hm
        rw [List.mem_flatMap] at hm
        obtain ⟨iv, hiv, hm⟩ := hm
        by_cases hlt : s < iv.startTime
        · rw [if_pos hlt, List.mem_filter] at hm
          simp only [Bool.and_eq_true, decide_eq_true_eq] at hm
          exact ⟨streak, hstreak, iv, hiv, hlt, hm.1, hm.2.1, hm.2.2⟩
        · rw [if_neg hlt] at hm
          exact absurd hm (List.not_mem_nil e)
    · rintro (⟨i, hi, hmi, h1, h2⟩ | ⟨streak, hstreak, iv, hiv, hlt, hmi, h1, h2⟩)
      · left
        rw [List.mem_flatMap]
        exact ⟨i, hi, List.mem_filter.mpr ⟨hmi, by simp [h1, h2]⟩⟩
      · right
        rw [List.mem_flatMap]
        refine ⟨streak, hstreak, ?_⟩
        rw [List.mem_flatMap]
        refine ⟨iv, hiv, ?_⟩
        rw [if_pos hlt, List.mem_filter]
        exact ⟨hmi, by simp [h1, h2]⟩
  refine ⟨?_, hiff⟩
  intro hm
  rcases hiff.mp hm with ⟨_, _, _, h1, h2⟩ | ⟨_, _, _, _, _, _, h1, h2⟩
  · exact ⟨h1, h2⟩
  · exact ⟨h1, h2⟩

set_option maxRecDepth 100000 in
unseal Rat.add Rat.sub Rat.mul Rat.inv in
/-- Witness for the amended C6 at a concrete input: the event at time 100
yielded for the window `[99, 400]` lies inside the window. -/
theorem scoreEvents_window_spec_witness :
    (99 : ℚ) ≤ (⟨1, 100⟩ : ScoreEvt).time ∧ (⟨1, 100⟩ : ScoreEvt).time ≤ 400 :=
  (scoreEvents_window_spec nexusC6 99 400 ⟨1, 100⟩).1 (by decide)

set_option maxRecDepth 100000 in
unseal Rat.add Rat.sub Rat.mul Rat.inv in
/-- C7: the code contradicts the advertised idempotence (and the spec's
"tested" claim).  After `advanceToTime` silently walks past the running
pomodoro's end, a second call with the same time finds no previously
active interval, bootstraps into `_makeNextInterval` with a pending
duration and `previouslyActive = None`, and dies on the assertion —
instead of being a no-op. -/
theorem advanceToTime_repeated_call_crashes :
    startPomodoro nexus0 1
      = some (nexus1, [UIEvent.intervalStart pom1], PomStartResult.Started)
    ∧ advanceToTime trivialIdealScore nexus1 400 = some (nexus2, [])
    ∧ advanceToTime trivialIdealScore nexus2 400 = none := by
  refine ⟨by decide, by decide, by decide⟩

/-- C8: evaluating a pomodoro with any result other than `achieved` only
replaces that pomodoro's evaluation with `(result, cursor)` — its start and
end times are untouched, no interval is added or ended, no notification is
sent, and a repeated evaluation simply overwrites the stored one (the
conclusion does not depend on the previously stored evaluation `ev0`). -/
theorem evaluatePomodoro_not_achieved_frame (ideal : IdealScore) (n : Nexus)
    (si ii : ℕ) (result : EvaluationResult) (s e : ℚ) (iid idx : ℕ)
    (ev0 : Option Evaluation) (streak : List AnyInterval)
    (hres : result ≠ EvaluationResult.achieved)
    (hstreak : n.streaks.get? si = some streak)
    (hpom : streak.get? ii = some (AnyInterval.pomodoro s e iid idx ev0)) :
    evaluatePomodoro ideal n si ii result =
      some ({ n with streaks := n.streaks.set si (streak.set ii
        (AnyInterval.pomodoro s e iid idx
          (some ⟨result, n.lastUpdateTime⟩))) }, []) := by
  unfold evaluatePomodoro
  rw [hstreak]
  dsimp only
  rw [hpom]
  dsimp only
  rw [if_neg hres]

set_option maxRecDepth 100000 in
unseal Rat.add Rat.sub Rat.mul Rat.inv in
/-- Witness for C8 at a concrete input: evaluating the running pomodoro of
`nexusC` as `distracted` (overwriting nothing else). -/
theorem evaluatePomodoro_not_achieved_frame_witness :
    evaluatePomodoro trivialIdealScore nexusC 0 0 EvaluationResult.distracted =
      some ({ nexusC with streaks := nexusC.streaks.set 0 ([pomA].set 0
        (AnyInterval.pomodoro 1234 1534 1 0
          (some ⟨EvaluationResult.distracted, nexusC.lastUpdateTime⟩))) }, []) :=
  evaluatePomodoro_not_achieved_frame trivialIdealScore nexusC 0 0
    EvaluationResult.distracted 1234 1534 1 0 none [pomA]
    (by decide) (by decide) (by decide)

/-- C9: every progress fraction handed to the listener's
`intervalProgress` during `advanceToTime` lies in the closed unit
interval: an interval is only reported while active, so the cursor sits
between its start and end, the divisor is positive, and the `min` clamp
keeps the quotient at most 1. -/
theorem intervalProgress_fractions_in_unit_interval (ideal : IdealScore)
    (n : Nexus) (t : ℚ) (n' : Nexus) (evs : List UIEvent)
    (h : advanceToTime ideal n t = some (n', evs)) :
    ∀ q, UIEvent.intervalProgress q ∈ evs → 0 ≤ q ∧ q ≤ 1 :=
  (advanceToTime_some_spec h).2

set_option maxRecDepth 100000 in
unseal Rat.add Rat.sub Rat.mul Rat.inv in
/-- Witness for C9 at a concrete input: the fraction 1/3 reported while
advancing `nexus1` to time 100 lies in the unit interval. -/
theorem intervalProgress_fractions_in_unit_interval_witness :
    (0 : ℚ) ≤ 1 / 3 ∧ (1 / 3 : ℚ) ≤ 1 :=
  intervalProgress_fractions_in_unit_interval trivialIdealScore nexus1 100
    { nexus1 with lastUpdateTime := 100 } [UIEvent.intervalProgress (1 / 3)]
    (by decide) (1 / 3) (by decide)

/-- C10: `availableIntentions` is the intention list filtered, in order, to
those intentions that are neither completed (no associated pomodoro has an
`achieved` evaluation) nor abandoned; an intention with either mark never
appears. -/
theorem availableIntentions_characterization (n : Nexus) (i : Intention) :
    List.Sublist (availableIntentions n) n.intentions ∧
      (i ∈ availableIntentions n ↔
        i ∈ n.intentions ∧ intentionCompleted n i = false ∧
          i.abandoned = false) := by
  constructor
  · exact List.filter_sublist _
  · unfold availableIntentions
    rw [List.mem_filter]
    simp [Bool.and_eq_true, Bool.not_eq_true']

/-- Witness for C10 at a concrete input: the unevaluated, unabandoned
intention of `nexus0` is available. -/
theorem availableIntentions_characterization_witness :
    intention0 ∈ availableIntentions nexus0 :=
  (availableIntentions_characterization nexus0 intention0).2.mpr (by decide)

end Pomodouroboros
